import Mathlib

/-!
Verification of the `find-old-files` utility (`src/lib.rs`).

The development shallowly embeds the three library functions

  * `get_directory_entries(directory, recursive) -> io::Result<Vec<PathBuf>>`
  * `get_access_time(path) -> anyhow::Result<u64>`
  * `get_access_times(directory, recursive) -> anyhow::Result<()>`

over an explicit model of the filesystem state seen during one run.  A
filesystem subtree is the inductive `FsNode`; a path is the list of name
components below the scanned root; an I/O failure that a real run could hit
(unreadable directory, failing `ReadDir` iterator item, failing
`file_type()` query) is represented by a dedicated node constructor, so
that the error-propagation behaviour of the Rust `?` operator is part of
the embedding.  Machine integers: the access time carried by `std::time`
is modelled as a signed count of whole seconds relative to the Unix epoch
(`Int`), and `Duration::as_secs` lands in `Nat`; no arithmetic in the
program can overflow these.
-/

/-- Kinds of `std::io::Error` the program can meet, plus a catch-all. -/
inductive IOErr where
  | notFound
  | permissionDenied
  | notADirectory
  | typeFailure
  | other (msg : String)
deriving DecidableEq

/-- One node of the filesystem as observed during a single run.

  * `file a` — a regular file whose metadata reports access time `a`
    (`none` models a platform where `Metadata::accessed()` returns `Err`);
  * `special b a` — an entry whose `file_type()` succeeds and is not a
    directory and not a regular file (symlink, socket, ...); `b` records
    whether `Path::is_file()` (which follows symlinks) holds for it at
    report time, `a` its access time as above;
  * `dir es` — a readable directory with named entries `es` in the order
    the OS yields them;
  * `unreadable e` — a directory whose `file_type()` reports a directory
    but whose `read_dir` fails with `e` (permission denied, vanished, ...);
  * `entryErr e` — a `ReadDir` iterator item that yields `Err(e)`;
  * `typeErr e` — an entry whose `DirEntry::file_type()` fails with `e`. -/
inductive FsNode where
  | file (atime : Option Int)
  | special (isFileTarget : Bool) (atime : Option Int)
  | dir (entries : List (String × FsNode))
  | unreadable (e : IOErr)
  | entryErr (e : IOErr)
  | typeErr (e : IOErr)

/-- The body of `get_directory_entries`, embedded over the entry list of an
already-opened directory.  `p` is the path of that directory below the
root.  It mirrors the Rust loop exactly: a failing iterator item or
`file_type()` aborts with the error; a directory entry is recursed into
when `recursive` is set (a failing recursive call aborts the whole call)
and the directory's own path is then pushed after the recursive results —
the §4.1 quirk — while with `recursive` unset the `continue` skips the
entry; every non-directory entry's path is pushed. -/
def walkList (r : Bool) : List String → List (String × FsNode) →
    Except IOErr (List (List String))
  | _, [] => .ok []
  | p, (name, n) :: rest =>
    match n with
    | .entryErr e => .error e
    | .typeErr e => .error e
    | .dir es =>
      if r then
        match walkList true (p ++ [name]) es with
        | .error e => .error e
        | .ok sub =>
          match walkList r p rest with
          | .error e => .error e
          | .ok tail => .ok (sub ++ (p ++ [name]) :: tail)
      else walkList r p rest
    | .unreadable e =>
      if r then .error e else walkList r p rest
    | .file _ =>
      match walkList r p rest with
      | .error e => .error e
      | .ok tail => .ok ((p ++ [name]) :: tail)
    | .special _ _ =>
      match walkList r p rest with
      | .error e => .error e
      | .ok tail => .ok ((p ++ [name]) :: tail)

/-- Embedding of `get_directory_entries(directory, recursive)`.  The
scanned path is represented by the node `node` it denotes together with
its component path `p` below the root of the model (the driver passes
`p = []`).  `fs::read_dir` fails on an unreadable directory with its
recorded error and on a non-directory with `NotADirectory`. -/
def get_directory_entries (node : FsNode) (p : List String) (r : Bool) :
    Except IOErr (List (List String)) :=
  match node with
  | .dir es => walkList r p es
  | .unreadable e => .error e
  | _ => .error .notADirectory

/-- First entry of `es` named `name` (directory listings of a real
filesystem have distinct names, so this is the lookup a re-`stat` of a
reported path performs). -/
def findEntry (name : String) : List (String × FsNode) → Option FsNode
  | [] => none
  | (n, node) :: rest => if n = name then some node else findEntry name rest

/-- Resolve a component path below `root` to the node it denotes. -/
def nodeAt : FsNode → List String → Option FsNode
  | n, [] => some n
  | .dir es, name :: rest =>
    match findEntry name es with
    | some n => nodeAt n rest
    | none => none
  | _, _ :: _ => none

/-- Whether `file_type()` reports a directory for this node. -/
def isDirNode : FsNode → Bool
  | .dir _ => true
  | .unreadable _ => true
  | _ => false

/-- Whether `file_type()` succeeds and reports a non-directory. -/
def nonDirNode : FsNode → Bool
  | .file _ => true
  | .special _ _ => true
  | _ => false

/-- The path `q` below `root` denoted, at observation time, a directory. -/
def isDirAt (root : FsNode) (q : List String) : Bool :=
  match nodeAt root q with
  | some n => isDirNode n
  | none => false

/-- `std::path::Path::is_file()` for the path `q` below `root` (it follows
symlinks, hence the recorded target kind of a `special` node). -/
def isFileAt (root : FsNode) (q : List String) : Bool :=
  match nodeAt root q with
  | some (.file _) => true
  | some (.special b _) => b
  | _ => false

/-- The slice of `fs::Metadata` the program reads: the result of
`Metadata::accessed()`, as a signed count of whole seconds since the Unix
epoch (`none` when the platform does not expose access times). -/
structure FileMeta where
  accessed : Option Int

/-- `fs::metadata(path)` for the path `q` below `root`: fails with
`NotFound` when the path denotes nothing, otherwise yields the metadata
(directories carry no access time the program ever reads). -/
def metaAt (root : FsNode) (q : List String) : Except IOErr FileMeta :=
  match nodeAt root q with
  | some (.file a) => .ok ⟨a⟩
  | some (.special _ a) => .ok ⟨a⟩
  | some _ => .ok ⟨none⟩
  | none => .error .notFound

/-- Outcome of `get_access_time`: the `Ok(u64)` value, the two `Err`
cases, or a process abort raised by `.expect(..)`. -/
inductive AccessTimeResult where
  | ok (secs : Nat)
  | ioError (e : IOErr)
  | unsupported (msg : String)
  | panicked (msg : String)
deriving DecidableEq

/-- Embedding of `get_access_time(path)`, as a function of the outcome of
the `fs::metadata` call it starts with.  `fs::metadata(path)?` propagates
an I/O error; when `metadata.accessed()` is `Ok(atime)`,
`atime.duration_since(UNIX_EPOCH)` fails exactly when the access time
predates the epoch and the `.expect("Invalid access time")` then aborts
the process, otherwise `as_secs()` returns the non-negative second count;
when `accessed()` is `Err`, the function returns the ad-hoc `anyhow`
error with the fixed message. -/
def get_access_time (m : Except IOErr FileMeta) : AccessTimeResult :=
  match m with
  | .error e => .ioError e
  | .ok meta =>
    match meta.accessed with
    | some t =>
      if t < 0 then .panicked "Invalid access time" else .ok t.toNat
    | none => .unsupported "Could not get access time for file"

/-- The access time the metadata oracle reports for an input of
`get_access_time`, when it reports one. -/
def atimeOf : Except IOErr FileMeta → Option Int
  | .error _ => none
  | .ok meta => meta.accessed

/-- How a run of the driver `get_access_times` can end short of success. -/
inductive DriverErr where
  | io (e : IOErr)
  | unsupported (msg : String)
  | panicked (msg : String)
deriving DecidableEq

/-- The report loop of `get_access_times` over the list of paths that the
traversal returned: each path that `is_file()` at report time is resolved
with `get_access_time` and printed as a `(path, seconds)` line; the first
failing resolution aborts the loop (`?` on the two `Err` cases, process
abort on the panic).  The chrono rendering of the second count
(`DateTime::from_timestamp(.. as i64, 0).unwrap()` and the `Debug`
format) is abstracted to the raw second count: the spec excludes output
formatting from the core, and no claim concerns the rendered text. -/
def reportLoop (root : FsNode) : List (List String) →
    List (List String × Nat) × Option DriverErr
  | [] => ([], none)
  | q :: rest =>
    if isFileAt root q then
      match get_access_time (metaAt root q) with
      | .ok t => ((q, t) :: (reportLoop root rest).1, (reportLoop root rest).2)
      | .ioError e => ([], some (.io e))
      | .unsupported m => ([], some (.unsupported m))
      | .panicked m => ([], some (.panicked m))
    else reportLoop root rest

/-- Embedding of the driver `get_access_times(directory, recursive)`: the
traversal runs first (`?` turns its error into the run's error and
nothing is printed), then the report loop processes its result in order.
The value is the list of printed lines together with the failure that
ended the run, if any. -/
def get_access_times (root : FsNode) (r : Bool) :
    List (List String × Nat) × Option DriverErr :=
  match get_directory_entries root [] r with
  | .error e => ([], some (.io e))
  | .ok entries => reportLoop root entries

/-- The first underlying I/O failure the loop of `walkList` would meet on
the entry list `es` with recursion flag `r`, if any: a failing iterator
item or type query at any position, and under recursion also an
unreadable subdirectory or a failure inside a subdirectory, in the order
the loop visits them. -/
def firstFaultList (r : Bool) : List (String × FsNode) → Option IOErr
  | [] => none
  | (_, n) :: rest =>
    match n with
    | .entryErr e => some e
    | .typeErr e => some e
    | .unreadable e => if r then some e else firstFaultList r rest
    | .dir es =>
      if r then
        match firstFaultList true es with
        | some e => some e
        | none => firstFaultList r rest
      else firstFaultList r rest
    | _ => firstFaultList r rest

/-- The first underlying I/O failure of `get_directory_entries` on `node`
with flag `r`: a root that is not a readable directory fails at the
initial `read_dir`, otherwise the loop failure, if any. -/
def firstFault (r : Bool) : FsNode → Option IOErr
  | .dir es => firstFaultList r es
  | .unreadable e => some e
  | _ => some .notADirectory

/-- Specification-order result of a successful traversal, written from the
spec's words (§4.1): entries in listing order; a non-directory entry
contributes its own path; with recursion a directory entry contributes
the recursively collected paths of its subtree followed by its own path
(children strictly before the directory, the §4.1 quirk), and without
recursion it contributes nothing. -/
def walkSpec (r : Bool) : List String → List (String × FsNode) →
    List (List String)
  | _, [] => []
  | p, (name, n) :: rest =>
    (match n with
     | .dir es => if r then walkSpec true (p ++ [name]) es ++ [p ++ [name]] else []
     | .file _ => [p ++ [name]]
     | .special _ _ => [p ++ [name]]
     | _ => []) ++ walkSpec r p rest

/-- Paths of the regular files directly among the entries `es` of a
directory at path `p`, in listing order. -/
def topLevelFiles (p : List String) (es : List (String × FsNode)) :
    List (List String) :=
  es.filterMap fun x =>
    match x.2 with
    | .file _ => some (p ++ [x.1])
    | _ => none

/-- Paths of every regular file anywhere below a directory with entries
`es` at path `p`, at any depth. -/
def filesUnderList (p : List String) : List (String × FsNode) →
    List (List String)
  | [] => []
  | (name, n) :: rest =>
    (match n with
     | .file _ => [p ++ [name]]
     | .dir es => filesUnderList (p ++ [name]) es
     | _ => []) ++ filesUnderList p rest

/-- Paths of every regular file anywhere below `node` at path `p`. -/
def filesUnder (p : List String) : FsNode → List (List String)
  | .dir es => filesUnderList p es
  | _ => []

/-- An entry on which the walker either keeps a regular file or descends
into / skips a directory: the top-level shapes the spec's data model
(§3) accounts for. -/
def fileOrDirNode : FsNode → Bool
  | .file _ => true
  | .dir _ => true
  | .unreadable _ => true
  | _ => false

theorem walkList_ok_eq (r : Bool) (p : List String)
    (es : List (String × FsNode)) :
    ∀ res, walkList r p es = .ok res → res = walkSpec r p es := by
  induction r, p, es using walkList.induct <;> intro res hres
  all_goals simp_all [walkList, walkSpec]

theorem walkList_error_iff (r : Bool) (p : List String)
    (es : List (String × FsNode)) :
    ∀ e, walkList r p es = .error e ↔ firstFaultList r es = some e := by
  induction r, p, es using walkList.induct <;> intro e
  all_goals simp_all [walkList, firstFaultList]
  all_goals (repeat' split) <;> simp_all

theorem filesUnderList_sub_walkSpec (p : List String)
    (es : List (String × FsNode)) :
    ∀ q ∈ filesUnderList p es, q ∈ walkSpec true p es := by
  induction p, es using filesUnderList.induct with
  | case1 _ => simp [filesUnderList]
  | case2 p name node rest ih2 ih1 =>
    intro q hq
    cases node <;> simp_all [filesUnderList, walkSpec] <;> tauto

theorem mem_walkSpec_of_nonDir (r : Bool) (p : List String)
    (es : List (String × FsNode)) (name : String) (n : FsNode) :
    (name, n) ∈ es → nonDirNode n = true → (p ++ [name]) ∈ walkSpec r p es := by
  induction es with
  | nil => intro h _; exact absurd h (List.not_mem_nil _)
  | cons hd tl ih =>
    intro hmem hnd
    rcases List.mem_cons.mp hmem with h | h
    · cases h
      cases n <;> simp_all [nonDirNode, walkSpec]
    · rcases hd with ⟨name', n'⟩
      have hrec := ih h hnd
      cases n' <;> cases r <;> simp_all [walkSpec, List.mem_append]

theorem walkSpec_false_mem (p : List String) (es : List (String × FsNode)) :
    ∀ q ∈ walkSpec false p es,
      ∃ name n, (name, n) ∈ es ∧ nonDirNode n = true ∧ q = p ++ [name] := by
  induction es with
  | nil => simp [walkSpec]
  | cons hd tl ih =>
    rcases hd with ⟨name', n'⟩
    intro q hq
    have hstep : q = p ++ [name'] ∧ nonDirNode n' = true ∨ q ∈ walkSpec false p tl := by
      cases n' <;> simp_all [walkSpec, nonDirNode, List.mem_append]
    rcases hstep with ⟨hqe, hnd⟩ | h
    · exact ⟨name', n', List.mem_cons_self _ _, hnd, hqe⟩
    · rcases ih q h with ⟨name, n, hmem, hnd, hqe⟩
      exact ⟨name, n, List.mem_cons_of_mem _ hmem, hnd, hqe⟩

theorem walkSpec_false_topFiles (p : List String)
    (es : List (String × FsNode)) :
    (∀ x ∈ es, fileOrDirNode x.2 = true) →
    walkSpec false p es = topLevelFiles p es := by
  induction es with
  | nil => simp [walkSpec, topLevelFiles]
  | cons hd tl ih =>
    rcases hd with ⟨name', n'⟩
    intro hall
    have h' : ∀ x ∈ tl, fileOrDirNode x.2 = true := by
      intro x hx; exact hall x (List.mem_cons_of_mem _ hx)
    have hn : fileOrDirNode n' = true := hall (name', n') (List.mem_cons_self _ _)
    cases n' <;> simp_all [walkSpec, topLevelFiles, fileOrDirNode]
    all_goals exact ih h'

theorem findEntry_of_nodup (es : List (String × FsNode)) (name : String)
    (n : FsNode) :
    (es.map Prod.fst).Nodup → (name, n) ∈ es → findEntry name es = some n := by
  induction es with
  | nil => intro _ h; exact absurd h (List.not_mem_nil _)
  | cons hd tl ih =>
    rcases hd with ⟨name', n'⟩
    intro hnd hmem
    simp only [List.map_cons, List.nodup_cons] at hnd
    rcases List.mem_cons.mp hmem with h | h
    · cases h; simp [findEntry]
    · have hne : name' ≠ name := by
        intro he
        exact hnd.1 (he ▸ (List.mem_map.mpr ⟨(name, n), h, rfl⟩))
      simp [findEntry, hne, ih hnd.2 h]

theorem reportLoop_spec (root : FsNode) (entries : List (List String)) :
    ((reportLoop root entries).1.map Prod.fst).Sublist
      (entries.filter fun q => isFileAt root q) ∧
    ((reportLoop root entries).2 = none →
      (reportLoop root entries).1.map Prod.fst =
        entries.filter fun q => isFileAt root q) := by
  induction entries with
  | nil => simp [reportLoop]
  | cons q rest ih =>
    by_cases hf : isFileAt root q
    · rcases hres : get_access_time (metaAt root q) with t | e | m | m
      · constructor
        · simpa [reportLoop, hf, hres, List.filter_cons] using
            List.Sublist.cons₂ q ih.1
        · intro hnone
          simp only [reportLoop, hf, if_true, hres] at hnone ⊢
          simp [List.filter_cons, hf, ih.2 hnone]
      all_goals
        constructor
        · simp [reportLoop, hf, hres]
        · intro hnone; simp [reportLoop, hf, hres] at hnone
    · constructor
      · simpa [reportLoop, hf, List.filter_cons] using ih.1
      · intro hnone
        simp only [reportLoop, hf, if_false] at hnone ⊢
        simp [List.filter_cons, hf, ih.2 hnone]

/-- C1: the claim that for every root and recursion flag the traversal
result contains only non-directory paths is false on the code: with
recursion enabled, a subdirectory that was recursed into is itself pushed
onto the result after its children (the §4.1 quirk).  Concretely, a root
holding one empty subdirectory `s` yields the result `[s]`, and `s` was a
directory at observation time. -/
theorem C1_counterexample :
    get_directory_entries (FsNode.dir [("s", FsNode.dir [])]) [] true
      = Except.ok [["s"]] ∧
    isDirAt (FsNode.dir [("s", FsNode.dir [])]) ["s"] = true := by
  constructor
  · simp [get_directory_entries, walkList]
  · rfl

/-- C1 (amended): with recursion disabled, no path in the result of
`get_directory_entries` denoted a directory at the moment it was listed
(for a root whose top-level entry names are distinct, as they are in any
real directory listing); with recursion enabled the invariant fails, as
the counterexample records. -/
theorem C1_nonrecursive_only_nondirs (es : List (String × FsNode))
    (res : List (List String)) (hnd : (es.map Prod.fst).Nodup)
    (h : get_directory_entries (FsNode.dir es) [] false = .ok res) :
    ∀ q ∈ res, isDirAt (FsNode.dir es) q = false := by
  intro q hq
  have hres := walkList_ok_eq false [] es res
    (by simpa [get_directory_entries] using h)
  subst hres
  rcases walkSpec_false_mem [] es q hq with ⟨name, n, hmem, hnde, hqe⟩
  subst hqe
  have hfind := findEntry_of_nodup es name n hnd hmem
  simp only [List.nil_append, isDirAt, nodeAt, hfind]
  cases n <;> simp_all [nonDirNode, isDirNode]

/-- C1 witness: on a root with a file `a` and a subdirectory `s`, the
non-recursive result contains `a`, and `a` was not a directory. -/
theorem C1_witness :
    isDirAt (FsNode.dir [("a", FsNode.file none), ("s", FsNode.dir [])])
      ["a"] = false :=
  C1_nonrecursive_only_nondirs [("a", FsNode.file none), ("s", FsNode.dir [])]
    [["a"]] (by decide) (by simp [get_directory_entries, walkList])
    ["a"] (by simp)

/-- C2: the claim that a directory with exactly N top-level regular files
yields, non-recursively, exactly those N paths is false on the code: the
walker keeps every entry whose type query reports a non-directory, so an
entry that is neither a regular file nor a directory (symlink, socket,
...) is returned as well.  Concretely, a root with one regular file `f`
and one such special entry `l` has exactly one top-level regular file but
yields the two-element result `[f, l]`. -/
theorem C2_counterexample :
    get_directory_entries
      (FsNode.dir [("f", FsNode.file none), ("l", FsNode.special false none)])
      [] false = Except.ok [["f"], ["l"]] ∧
    topLevelFiles [] [("f", FsNode.file none), ("l", FsNode.special false none)]
      = [["f"]] ∧
    ([["f"], ["l"]] : List (List String)) ≠ [["f"]] := by
  refine ⟨by simp [get_directory_entries, walkList], by simp [topLevelFiles], by decide⟩

/-- C2 (amended): for a directory whose top-level entries are all regular
files or directories — the only entry kinds the spec's data model names —
the non-recursive traversal returns exactly the top-level regular file
paths, in listing order: every top-level file appears, and nothing from
any subdirectory and no directory path appears. -/
theorem C2_nonrecursive_exact (es : List (String × FsNode))
    (res : List (List String))
    (hk : ∀ x ∈ es, fileOrDirNode x.2 = true)
    (h : get_directory_entries (FsNode.dir es) [] false = .ok res) :
    res = topLevelFiles [] es := by
  have hres := walkList_ok_eq false [] es res
    (by simpa [get_directory_entries] using h)
  subst hres
  exact walkSpec_false_topFiles [] es hk

/-- C2 witness: a root with file `f` and subdirectory `d` (itself holding
a file) yields, non-recursively, exactly the top-level file list. -/
theorem C2_witness :
    ([["f"]] : List (List String)) = topLevelFiles []
      [("f", FsNode.file none), ("d", FsNode.dir [("x", FsNode.file none)])] :=
  C2_nonrecursive_exact
    [("f", FsNode.file none), ("d", FsNode.dir [("x", FsNode.file none)])]
    [["f"]] (by decide) (by simp [get_directory_entries, walkList])

/-- C3: every regular file anywhere below the scanned root, at any depth,
appears in the result of a successful recursive traversal. -/
theorem C3_recursive_superset (root : FsNode) (p : List String)
    (res : List (List String))
    (h : get_directory_entries root p true = .ok res) :
    ∀ q ∈ filesUnder p root, q ∈ res := by
  intro q hq
  cases root
  case dir es =>
    have hres := walkList_ok_eq true p es res
      (by simpa [get_directory_entries] using h)
    subst hres
    exact filesUnderList_sub_walkSpec p es q (by simpa [filesUnder] using hq)
  all_goals simp_all [filesUnder]

/-- C3 witness: the nested file `sub/b` of a concrete two-level tree is
found in the recursive traversal result. -/
theorem C3_witness :
    ["sub", "b"] ∈ [["a"], ["sub", "b"], ["sub"]] :=
  C3_recursive_superset
    (FsNode.dir [("a", FsNode.file none),
      ("sub", FsNode.dir [("b", FsNode.file none)])])
    [] [["a"], ["sub", "b"], ["sub"]]
    (by simp [get_directory_entries, walkList])
    ["sub", "b"] (by simp [filesUnder, filesUnderList])

/-- C4: whenever an underlying I/O operation would fail somewhere in the
traversal — the root cannot be opened or read (a non-existent root
included), a `ReadDir` item or a `file_type()` query fails, or a
recursive call fails — `get_directory_entries` returns exactly the first
such error and no result list at all. -/
theorem C4_error_propagation (root : FsNode) (p : List String) (r : Bool)
    (e : IOErr) (h : firstFault r root = some e) :
    get_directory_entries root p r = .error e ∧
    ∀ res, get_directory_entries root p r ≠ .ok res := by
  have herr : get_directory_entries root p r = .error e := by
    cases root
    case dir es =>
      simp only [get_directory_entries]
      exact (walkList_error_iff r p es e).mpr (by simpa [firstFault] using h)
    all_goals simp_all [firstFault, get_directory_entries]
  refine ⟨herr, ?_⟩
  intro res hres
  rw [herr] at hres
  exact Except.noConfusion hres

/-- C4 witness: a root holding a permission-denied subdirectory makes the
recursive traversal fail with that error. -/
theorem C4_witness :
    get_directory_entries
      (FsNode.dir [("s", FsNode.unreadable IOErr.permissionDenied)]) [] true
      = Except.error IOErr.permissionDenied :=
  (C4_error_propagation
    (FsNode.dir [("s", FsNode.unreadable IOErr.permissionDenied)]) [] true
    IOErr.permissionDenied (by simp [firstFault, firstFaultList])).1

/-- C5: on a readable path whose recorded access time predates the Unix
epoch, `get_access_time` aborts the process (the `expect` on
`duration_since`) instead of returning any recoverable error, and this
panic branch is unreachable whenever the unchecked precondition — a
non-negative access time — holds. -/
theorem C5_panic_on_pre_epoch :
    get_access_time (Except.ok ⟨some (-1)⟩)
      = AccessTimeResult.panicked "Invalid access time" ∧
    (∀ e, get_access_time (Except.ok ⟨some (-1)⟩) ≠ .ioError e) ∧
    (∀ s, get_access_time (Except.ok ⟨some (-1)⟩) ≠ .unsupported s) ∧
    (∀ k, get_access_time (Except.ok ⟨some (-1)⟩) ≠ .ok k) ∧
    (∀ m : Except IOErr FileMeta,
      (∀ t, atimeOf m = some t → 0 ≤ t) →
      ∀ msg, get_access_time m ≠ .panicked msg) := by
  have hpan : get_access_time (Except.ok ⟨some (-1)⟩)
      = AccessTimeResult.panicked "Invalid access time" := by decide
  refine ⟨hpan, ?_, ?_, ?_, ?_⟩
  · intro e h; rw [hpan] at h; exact AccessTimeResult.noConfusion h
  · intro s h; rw [hpan] at h; exact AccessTimeResult.noConfusion h
  · intro k h; rw [hpan] at h; exact AccessTimeResult.noConfusion h
  intro m hpre msg hcon
  cases m with
  | error e => simp [get_access_time] at hcon
  | ok meta =>
    rcases meta with ⟨acc⟩
    cases acc with
    | none => simp [get_access_time] at hcon
    | some t =>
      have hnn := hpre t (by simp [atimeOf])
      by_cases hlt : t < 0
      · omega
      · simp [get_access_time, hlt] at hcon

/-- C5 witness: with an epoch-or-later access time the panic branch is not
taken. -/
theorem C5_witness :
    get_access_time (Except.ok ⟨some 0⟩)
      ≠ AccessTimeResult.panicked "Invalid access time" :=
  C5_panic_on_pre_epoch.2.2.2.2 (Except.ok ⟨some 0⟩)
    (by intro t ht; simp [atimeOf] at ht; omega) "Invalid access time"

/-- C6: `get_access_time` fails in exactly two distinguishable ways: it
returns the I/O error exactly when the metadata query fails, and it
returns the ad-hoc error with message "Could not get access time for
file" exactly when metadata is obtained but carries no access time; the
two error shapes are distinct, so a caller can tell them apart. -/
theorem C6_two_failure_modes (m : Except IOErr FileMeta) :
    (∀ e, get_access_time m = .ioError e ↔ m = .error e) ∧
    (∀ s, get_access_time m = .unsupported s ↔
      m = .ok ⟨none⟩ ∧ s = "Could not get access time for file") ∧
    (∀ e s, AccessTimeResult.ioError e ≠ .unsupported s) := by
  refine ⟨?_, ?_, by intro e s h; exact AccessTimeResult.noConfusion h⟩
  · intro e
    cases m with
    | error e' => simp [get_access_time]
    | ok meta =>
      rcases meta with ⟨acc⟩
      cases acc with
      | none => simp [get_access_time]
      | some t => by_cases hlt : t < 0 <;> simp [get_access_time, hlt]
  · intro s
    cases m with
    | error e' => simp [get_access_time]
    | ok meta =>
      rcases meta with ⟨acc⟩
      cases acc with
      | none => simp [get_access_time, eq_comm]
      | some t => by_cases hlt : t < 0 <;> simp [get_access_time, hlt]

/-- C6 witness: a failing metadata query surfaces as the I/O error of that
failure. -/
theorem C6_witness :
    get_access_time (Except.error IOErr.notFound)
      = AccessTimeResult.ioError IOErr.notFound :=
  ((C6_two_failure_modes (Except.error IOErr.notFound)).1 IOErr.notFound).mpr rfl

/-- C7: an empty readable directory yields the empty result and never an
error, whichever value the recursion flag has. -/
theorem C7_empty_dir (p : List String) (r : Bool) :
    get_directory_entries (FsNode.dir []) p r = .ok [] := by
  simp [get_directory_entries, walkList]

/-- C8: the driver resolves and prints a line for a traversal-result path
only if that path is a file when re-checked at report time, and the
printed paths keep the traversal order (they form a sublist of the
result filtered by the file re-check); when the run succeeds they are
exactly that filtered list, so paths that are not files at report time —
the directory entries of the §4.1 quirk included — are never resolved or
printed. -/
theorem C8_driver_reports_files_in_order (root : FsNode) (r : Bool)
    (entries : List (List String))
    (h : get_directory_entries root [] r = .ok entries) :
    ((get_access_times root r).1.map Prod.fst).Sublist
      (entries.filter fun q => isFileAt root q) ∧
    ((get_access_times root r).2 = none →
      (get_access_times root r).1.map Prod.fst =
        entries.filter fun q => isFileAt root q) := by
  have hga : get_access_times root r = reportLoop root entries := by
    simp [get_access_times, h]
  rw [hga]
  exact reportLoop_spec root entries

/-- C8 witness: on a tree with files `a` and `s/b` below a subdirectory
`s`, the recursive run prints exactly the two file paths and skips the
directory path `s` that the traversal also returned. -/
theorem C8_witness :
    ((get_access_times
        (FsNode.dir [("a", FsNode.file (some 5)),
          ("s", FsNode.dir [("b", FsNode.file (some 7))])]) true).1.map
      Prod.fst) =
      ([["a"], ["s", "b"], ["s"]].filter fun q =>
        isFileAt (FsNode.dir [("a", FsNode.file (some 5)),
          ("s", FsNode.dir [("b", FsNode.file (some 7))])]) q) :=
  (C8_driver_reports_files_in_order
    (FsNode.dir [("a", FsNode.file (some 5)),
      ("s", FsNode.dir [("b", FsNode.file (some 7))])]) true
    [["a"], ["s", "b"], ["s"]]
    (by simp [get_directory_entries, walkList])).2
    (by simp [get_access_times, get_directory_entries, walkList, reportLoop,
      isFileAt, nodeAt, findEntry, metaAt, get_access_time])

/-- C9: every directory entry whose type query succeeds and reports a
non-directory — regular file or not — has its path in the result of a
successful traversal, with recursion enabled or disabled alike: the
walker's only classification is directory versus non-directory. -/
theorem C9_nondir_entries_appended (es : List (String × FsNode))
    (p : List String) (r : Bool) (res : List (List String))
    (name : String) (n : FsNode)
    (h : get_directory_entries (FsNode.dir es) p r = .ok res)
    (hmem : (name, n) ∈ es) (hnd : nonDirNode n = true) :
    (p ++ [name]) ∈ res := by
  have hres := walkList_ok_eq r p es res
    (by simpa [get_directory_entries] using h)
  subst hres
  exact mem_walkSpec_of_nonDir r p es name n hmem hnd

/-- C9 witness: a special (non-regular, non-directory) entry `x` appears
in the recursive traversal result. -/
theorem C9_witness :
    (["x"] : List String) ∈ [["x"], ["d"]] :=
  C9_nondir_entries_appended
    [("x", FsNode.special false none), ("d", FsNode.dir [])] [] true
    [["x"], ["d"]] "x" (FsNode.special false none)
    (by simp [get_directory_entries, walkList]) (by simp) rfl

/-- C10: a successful recursive traversal result is exactly the
depth-first sequence in which each recursed-into subdirectory is preceded
by everything discovered inside it and sibling entries keep the listing
order: it equals `walkSpec true`, whose directory case emits the
subtree's paths and then the subdirectory's own path. -/
theorem C10_children_before_directory (es : List (String × FsNode))
    (p : List String) (res : List (List String))
    (h : get_directory_entries (FsNode.dir es) p true = .ok res) :
    res = walkSpec true p es :=
  walkList_ok_eq true p es res (by simpa [get_directory_entries] using h)

/-- C10 witness: on a root with subdirectory `s` (holding `b`) listed
before file `a`, the traversal yields `s/b` before `s` before `a`, which
is the specified depth-first order. -/
theorem C10_witness :
    ([["s", "b"], ["s"], ["a"]] : List (List String)) =
      walkSpec true [] [("s", FsNode.dir [("b", FsNode.file none)]),
        ("a", FsNode.file none)] :=
  C10_children_before_directory
    [("s", FsNode.dir [("b", FsNode.file none)]), ("a", FsNode.file none)]
    [] [["s", "b"], ["s"], ["a"]]
    (by simp [get_directory_entries, walkList])
